import Mathlib

/-!
Verification of the Task persistence layer of a Rocket + Diesel demo
application (file src/task.rs).

The SQLite table tasks(id INTEGER PRIMARY KEY, description TEXT,
completed BOOLEAN) is modelled as a list of rows in insertion order.
Storage-engine failures are modelled by a fault schedule: a list of
booleans carried in the connection state, one bit consumed per executed
SQL statement; a true bit makes that statement return a storage error.
Diesel transactions roll the table back to its pre-transaction contents
when the inner closure returns an error.  A Rust panic (the unwrap call
in Task::all) is modelled by the explicit Fatal error result, while the
ok() and unwrap_or_default() conversions of the other operations are
modelled by Option and Bool results, exactly as in the Rust signatures.
-/

namespace RocketDemo

/-- Row of the tasks table: a persisted task (struct Task in task.rs). -/
structure Task where
  id : Int
  description : String
  completed : Bool
deriving DecidableEq

/-- Creation payload: a description only (struct Todo in task.rs). -/
structure Todo where
  description : String
deriving DecidableEq

/-- Diesel-level query errors: a missing row (NotFound) or an
engine-level storage failure. -/
inductive DbErr where
  | notFound
  | storage
deriving DecidableEq

/-- Process abort: the result of calling unwrap on an Err value. -/
inductive Fatal where
  | fatal
deriving DecidableEq

/-- Contents of the tasks table, in insertion order. -/
abbrev Db := List Task

/-- Connection state: the table contents plus the fault schedule that
decides which future SQL statements fail at the storage level. -/
structure St where
  db : Db
  faults : List Bool
deriving DecidableEq

/-- Head of the fault schedule; an empty schedule means no fault. -/
def hd (fs : List Bool) : Bool := fs.headD false

/-- Relation ordering tasks by descending id (ORDER BY id DESC). -/
def taskGe (a b : Task) : Prop := b.id ≤ a.id

instance : DecidableRel taskGe := fun a b => inferInstanceAs (Decidable (b.id ≤ a.id))

instance : IsTotal Task taskGe := ⟨fun a b => Int.le_total b.id a.id⟩

instance : IsTrans Task taskGe := ⟨fun _ _ _ h1 h2 => le_trans h2 h1⟩

/-- Result set of SELECT * FROM tasks ORDER BY id DESC. -/
def sortDesc (l : List Task) : List Task := l.insertionSort taskGe

/-- Result of SELECT * FROM tasks WHERE id = i LIMIT 1: the first row
of the table whose id matches. -/
def findRow (i : Int) (db : Db) : Option Task := db.find? fun r => r.id == i

/-- Rowid SQLite assigns to a newly inserted row: one more than the
largest existing id (ids produced by this API are all positive). -/
def nextId (db : Db) : Int := (db.map Task.id).foldl max 0 + 1

/-- Row created for a Todo payload: fresh id, the given description,
completed defaulting to false. -/
def newTask (todo : Todo) (db : Db) : Task :=
  { id := nextId db, description := todo.description, completed := false }

/-- Statement all_tasks.order(id.desc()).load::<Task>(conn). -/
def primLoadAll (s : St) : Except DbErr (List Task) × St :=
  if hd s.faults then (.error .storage, ⟨s.db, s.faults.tail⟩)
  else (.ok (sortDesc s.db), ⟨s.db, s.faults.tail⟩)

/-- Statement all_tasks.find(i).get_result::<Task>(conn): storage fault,
else the first matching row, else a NotFound error. -/
def primGetFind (i : Int) (s : St) : Except DbErr Task × St :=
  if hd s.faults then (.error .storage, ⟨s.db, s.faults.tail⟩)
  else
    match findRow i s.db with
    | some t => (.ok t, ⟨s.db, s.faults.tail⟩)
    | none => (.error .notFound, ⟨s.db, s.faults.tail⟩)

/-- Statement all_tasks.order(id.desc()).first::<Task>(conn): storage
fault, else the row with the greatest id, else NotFound on an empty
table. -/
def primFirstDesc (s : St) : Except DbErr Task × St :=
  if hd s.faults then (.error .storage, ⟨s.db, s.faults.tail⟩)
  else
    match sortDesc s.db with
    | [] => (.error .notFound, ⟨s.db, s.faults.tail⟩)
    | t :: _ => (.ok t, ⟨s.db, s.faults.tail⟩)

/-- Statement insert_into(tasks::table).values(todo).execute(conn):
appends a fresh row with the next rowid, returning the affected count. -/
def primInsert (todo : Todo) (s : St) : Except DbErr Nat × St :=
  if hd s.faults then (.error .storage, ⟨s.db, s.faults.tail⟩)
  else (.ok 1, ⟨s.db ++ [newTask todo s.db], s.faults.tail⟩)

/-- Statement update(&task).set(completed.eq(c)).execute(conn): sets the
completed flag of every row whose id matches (the primary key makes the
match unique in reachable states). -/
def primUpdate (i : Int) (c : Bool) (s : St) : Except DbErr Nat × St :=
  if hd s.faults then (.error .storage, ⟨s.db, s.faults.tail⟩)
  else
    (.ok (s.db.countP fun r => r.id == i),
      ⟨s.db.map fun r => if r.id == i then { r with completed := c } else r, s.faults.tail⟩)

/-- Statement delete(all_tasks.find(i)).execute(conn): removes every row
whose id matches and returns the number of rows removed. -/
def primDelete (i : Int) (s : St) : Except DbErr Nat × St :=
  if hd s.faults then (.error .storage, ⟨s.db, s.faults.tail⟩)
  else
    (.ok (s.db.countP fun r => r.id == i),
      ⟨s.db.filter fun r => !(r.id == i), s.faults.tail⟩)

/-- Function Task::all: load every row ordered by descending id and
unwrap, so a storage failure aborts (Fatal) instead of being handled. -/
def Task.all (s : St) : Except Fatal (List Task) × St :=
  match primLoadAll s with
  | (.ok ts, s1) => (.ok ts, s1)
  | (.error _, s1) => (.error .fatal, s1)

/-- Function Task::get_one: find by id, with ok() collapsing both the
NotFound and the storage error into None. -/
def Task.get_one (i : Int) (s : St) : Option Task × St :=
  match primGetFind i s with
  | (.ok t, s1) => (some t, s1)
  | (.error _, s1) => (none, s1)

/-- Function Task::insert: inside one transaction, insert the payload
and re-read the first row by descending id; ok() collapses any error
into None and the transaction rolls the table back on error. -/
def Task.insert (todo : Todo) (s : St) : Option Task × St :=
  match
    ((match primInsert todo s with
      | (.ok _, s1) => primFirstDesc s1
      | (.error e, s1) => (.error e, s1)) : Except DbErr Task × St) with
  | (.ok t, s2) => (some t, s2)
  | (.error _, s2) => (none, ⟨s.db, s2.faults⟩)

/-- Function Task::toggle_with_id: inside one transaction, read the row,
write the negated completed flag, and re-read the row; ok() collapses
any error into None and the transaction rolls the table back on error. -/
def Task.toggle_with_id (i : Int) (s : St) : Option Task × St :=
  match
    ((match primGetFind i s with
      | (.error e, s1) => (.error e, s1)
      | (.ok t, s1) =>
        match primUpdate i (!t.completed) s1 with
        | (.error e, s2) => (.error e, s2)
        | (.ok _, s2) => primGetFind i s2) : Except DbErr Task × St) with
  | (.ok t, s3) => (some t, s3)
  | (.error _, s3) => (none, ⟨s.db, s3.faults⟩)

/-- Function Task::delete_with_id: delete by id, mapping the affected
count to a boolean, with unwrap_or_default() turning any error into
false. -/
def Task.delete_with_id (i : Int) (s : St) : Bool × St :=
  match primDelete i s with
  | (.ok n, s1) => (decide (0 < n), s1)
  | (.error _, s1) => (false, s1)

/-- Closed set of operations the store exposes, for frame reasoning. -/
inductive Op where
  | listAll
  | getOne (i : Int)
  | ins (todo : Todo)
  | tog (i : Int)
  | del (i : Int)
deriving DecidableEq

/-- Effect of one operation on the connection state. -/
def stepOp (op : Op) (s : St) : St :=
  match op with
  | .listAll => (Task.all s).2
  | .getOne i => (Task.get_one i s).2
  | .ins todo => (Task.insert todo s).2
  | .tog i => (Task.toggle_with_id i s).2
  | .del i => (Task.delete_with_id i s).2

/-- Effect of a sequence of operations, applied left to right. -/
def runOps (ops : List Op) (s : St) : St := ops.foldl (fun s op => stepOp op s) s

/-- Permutation: the descending sort returns exactly the table rows. -/
theorem sortDesc_perm (l : List Task) : (sortDesc l).Perm l :=
  List.perm_insertionSort taskGe l

/-- Sortedness: the descending sort is sorted by descending id. -/
theorem sortDesc_sorted (l : List Task) : List.Sorted taskGe (sortDesc l) :=
  List.sorted_insertionSort taskGe l

/-- Folding max over a list never goes below the initial accumulator. -/
theorem init_le_foldl_max (l : List Int) (a : Int) : a ≤ l.foldl max a := by
  induction l generalizing a with
  | nil => exact le_refl a
  | cons y ys ih => exact le_trans (le_max_left a y) (ih (max a y))

/-- Folding max over a list dominates every member. -/
theorem mem_le_foldl_max (l : List Int) (a x : Int) (hx : x ∈ l) : x ≤ l.foldl max a := by
  induction l generalizing a with
  | nil => cases hx
  | cons y ys ih =>
    rcases List.mem_cons.mp hx with h | h
    · subst h
      exact le_trans (le_max_right a x) (init_le_foldl_max ys (max a x))
    · exact ih (max a y) h

/-- Freshness: the id SQLite assigns to a new row is strictly greater
than the id of every existing row. -/
theorem id_lt_nextId (db : Db) (r : Task) (hr : r ∈ db) : r.id < nextId db := by
  have h := mem_le_foldl_max (db.map Task.id) 0 r.id (List.mem_map.mpr ⟨r, hr, rfl⟩)
  simp only [nextId]
  omega

/-- Sorting a table extended with a strictly dominating row puts that
row first. -/
theorem sortDesc_append_fresh (l : List Task) (t : Task) (h : ∀ u ∈ l, u.id < t.id) :
    sortDesc (l ++ [t]) = t :: sortDesc l := by
  induction l with
  | nil => rfl
  | cons a l ih =>
    have ha : a.id < t.id := h a (List.mem_cons_self a l)
    have h2 : ∀ u ∈ l, u.id < t.id := fun u hu => h u (List.mem_cons_of_mem a hu)
    show List.orderedInsert taskGe a (sortDesc (l ++ [t])) = _
    rw [ih h2]
    show List.orderedInsert taskGe a (t :: sortDesc l) = _
    rw [List.orderedInsert, if_neg (show ¬ taskGe a t from not_le.mpr ha)]
    rfl

/-- Unfolding lemma: row lookup checks the head row first. -/
theorem findRow_cons (i : Int) (a : Task) (db : Db) :
    findRow i (a :: db) = if a.id = i then some a else findRow i db := by
  rw [findRow, List.find?_cons]
  by_cases h : a.id = i
  · simp [h]
  · have hb : (a.id == i) = false := by simp [h]
    simp [h, hb, findRow]

/-- Re-reading by id after an update that rewrites the completed flag of
the matching rows yields the first match with its flag rewritten. -/
theorem findRow_map_completed (i : Int) (db : Db) (t : Task) (b : Bool)
    (h : findRow i db = some t) :
    findRow i (db.map fun r => if r.id == i then { r with completed := b } else r)
      = some { t with completed := b } := by
  induction db with
  | nil => simp [findRow] at h
  | cons a db ih =>
    rw [findRow_cons] at h
    by_cases ha : a.id = i
    · rw [if_pos ha] at h
      injection h with h
      subst h
      simp [findRow_cons, ha]
    · rw [if_neg ha] at h
      simpa [findRow_cons, ha] using ih h

/-- Looking up a fresh id in an extended table finds the new row. -/
theorem findRow_append_fresh (db : Db) (t : Task) (h : ∀ r ∈ db, r.id ≠ t.id) :
    findRow t.id (db ++ [t]) = some t := by
  induction db with
  | nil => simp [findRow_cons]
  | cons a db ih =>
    rw [List.cons_append, findRow_cons, if_neg (h a (List.mem_cons_self a db))]
    exact ih fun r hr => h r (List.mem_cons_of_mem a hr)

/-- Looking up an id after deleting every matching row finds nothing. -/
theorem findRow_filter_none (i : Int) (db : Db) :
    findRow i (db.filter fun r => !(r.id == i)) = none := by
  rw [findRow, List.find?_eq_none]
  intro x hx
  have hm := (List.mem_filter.mp hx).2
  simp only [Bool.not_eq_true'] at hm
  simp [hm]

/-- List succeeds on a fault-free statement, returning sorted rows. -/
theorem all_ok (s : St) (h : hd s.faults = false) :
    Task.all s = (.ok (sortDesc s.db), ⟨s.db, s.faults.tail⟩) := by
  simp [Task.all, primLoadAll, h]

/-- List aborts when its one statement reports a storage error. -/
theorem all_fault (s : St) (h : hd s.faults = true) :
    Task.all s = (.error .fatal, ⟨s.db, s.faults.tail⟩) := by
  simp [Task.all, primLoadAll, h]

/-- List never changes the table. -/
theorem all_db (s : St) : (Task.all s).2.db = s.db := by
  cases h : hd s.faults
  · rw [all_ok s h]
  · rw [all_fault s h]

/-- Get succeeds when the row exists and the statement does not fault. -/
theorem get_one_found (i : Int) (s : St) (t : Task) (h : hd s.faults = false)
    (ht : findRow i s.db = some t) :
    Task.get_one i s = (some t, ⟨s.db, s.faults.tail⟩) := by
  simp [Task.get_one, primGetFind, h, ht]

/-- Get returns None when no row matches. -/
theorem get_one_missing (i : Int) (s : St) (h : hd s.faults = false)
    (ht : findRow i s.db = none) :
    Task.get_one i s = (none, ⟨s.db, s.faults.tail⟩) := by
  simp [Task.get_one, primGetFind, h, ht]

/-- Get returns None when its statement reports a storage error. -/
theorem get_one_fault (i : Int) (s : St) (h : hd s.faults = true) :
    Task.get_one i s = (none, ⟨s.db, s.faults.tail⟩) := by
  simp [Task.get_one, primGetFind, h]

/-- Get never changes the table. -/
theorem get_one_db (i : Int) (s : St) : (Task.get_one i s).2.db = s.db := by
  cases h : hd s.faults
  · cases ht : findRow i s.db
    · rw [get_one_missing i s h ht]
    · rw [get_one_found i s _ h ht]
  · rw [get_one_fault i s h]

/-- Insert succeeds when both statements are fault-free: the fresh row
is appended and returned. -/
theorem insert_success (todo : Todo) (s : St)
    (h1 : hd s.faults = false) (h2 : hd s.faults.tail = false) :
    Task.insert todo s =
      (some (newTask todo s.db), ⟨s.db ++ [newTask todo s.db], s.faults.tail.tail⟩) := by
  have hs : sortDesc (s.db ++ [newTask todo s.db]) = newTask todo s.db :: sortDesc s.db :=
    sortDesc_append_fresh s.db (newTask todo s.db) fun u hu => id_lt_nextId s.db u hu
  simp [Task.insert, primInsert, primFirstDesc, h1, h2, hs]

/-- Insert returns None when the INSERT statement faults. -/
theorem insert_fault1 (todo : Todo) (s : St) (h : hd s.faults = true) :
    Task.insert todo s = (none, ⟨s.db, s.faults.tail⟩) := by
  simp [Task.insert, primInsert, h]

/-- Insert rolls back and returns None when the re-read faults. -/
theorem insert_fault2 (todo : Todo) (s : St) (h1 : hd s.faults = false)
    (h2 : hd s.faults.tail = true) :
    Task.insert todo s = (none, ⟨s.db, s.faults.tail.tail⟩) := by
  simp [Task.insert, primInsert, primFirstDesc, h1, h2]

/-- Toggle succeeds when the row exists and all three statements are
fault-free: the matching row has its completed flag negated. -/
theorem toggle_success (i : Int) (s : St) (t : Task)
    (h0 : hd s.faults = false) (h1 : hd s.faults.tail = false)
    (h2 : hd s.faults.tail.tail = false) (ht : findRow i s.db = some t) :
    Task.toggle_with_id i s =
      (some { t with completed := !t.completed },
       ⟨s.db.map fun r => if r.id == i then { r with completed := !t.completed } else r,
        s.faults.tail.tail.tail⟩) := by
  have hre := findRow_map_completed i s.db t (!t.completed) ht
  simp only [beq_iff_eq] at hre
  simp [Task.toggle_with_id, primGetFind, primUpdate, h0, h1, h2, ht, hre]

/-- Toggle returns None when no row matches. -/
theorem toggle_missing (i : Int) (s : St) (h0 : hd s.faults = false)
    (ht : findRow i s.db = none) :
    Task.toggle_with_id i s = (none, ⟨s.db, s.faults.tail⟩) := by
  simp [Task.toggle_with_id, primGetFind, h0, ht]

/-- Toggle returns None when its first read faults. -/
theorem toggle_fault1 (i : Int) (s : St) (h : hd s.faults = true) :
    Task.toggle_with_id i s = (none, ⟨s.db, s.faults.tail⟩) := by
  simp [Task.toggle_with_id, primGetFind, h]

/-- Toggle rolls back and returns None when the UPDATE faults. -/
theorem toggle_fault2 (i : Int) (s : St) (t : Task) (h0 : hd s.faults = false)
    (h1 : hd s.faults.tail = true) (ht : findRow i s.db = some t) :
    Task.toggle_with_id i s = (none, ⟨s.db, s.faults.tail.tail⟩) := by
  simp [Task.toggle_with_id, primGetFind, primUpdate, h0, h1, ht]

/-- Toggle rolls back and returns None when the re-read faults. -/
theorem toggle_fault3 (i : Int) (s : St) (t : Task) (h0 : hd s.faults = false)
    (h1 : hd s.faults.tail = false) (h2 : hd s.faults.tail.tail = true)
    (ht : findRow i s.db = some t) :
    Task.toggle_with_id i s = (none, ⟨s.db, s.faults.tail.tail.tail⟩) := by
  simp [Task.toggle_with_id, primGetFind, primUpdate, h0, h1, h2, ht]

/-- Delete on a fault-free statement removes the matching rows and
reports whether any row was removed. -/
theorem delete_ok (i : Int) (s : St) (h : hd s.faults = false) :
    Task.delete_with_id i s =
      (decide (0 < s.db.countP fun r => r.id == i),
       ⟨s.db.filter fun r => !(r.id == i), s.faults.tail⟩) := by
  simp [Task.delete_with_id, primDelete, h]

/-- Delete returns false when its statement reports a storage error. -/
theorem delete_fault (i : Int) (s : St) (h : hd s.faults = true) :
    Task.delete_with_id i s = (false, ⟨s.db, s.faults.tail⟩) := by
  simp [Task.delete_with_id, primDelete, h]

/-- Case split: insert either leaves the table unchanged or appends the
fresh row. -/
theorem insert_db_cases (todo : Todo) (s : St) :
    (Task.insert todo s).2.db = s.db ∨
    (Task.insert todo s).2.db = s.db ++ [newTask todo s.db] := by
  cases h1 : hd s.faults
  · cases h2 : hd s.faults.tail
    · right
      rw [insert_success todo s h1 h2]
    · left
      rw [insert_fault2 todo s h1 h2]
  · left
    rw [insert_fault1 todo s h1]

/-- Case split: toggle either leaves the table unchanged or rewrites
exactly the completed flag of the rows carrying the requested id. -/
theorem toggle_db_cases (i : Int) (s : St) :
    (Task.toggle_with_id i s).2.db = s.db ∨
    ∃ t, findRow i s.db = some t ∧
      (Task.toggle_with_id i s).2.db =
        (s.db.map fun r => if r.id == i then { r with completed := !t.completed } else r) := by
  cases h0 : hd s.faults
  · cases ht : findRow i s.db with
    | none =>
      left
      rw [toggle_missing i s h0 ht]
    | some t =>
      cases h1 : hd s.faults.tail
      · cases h2 : hd s.faults.tail.tail
        · right
          exact ⟨t, rfl, by rw [toggle_success i s t h0 h1 h2 ht]⟩
        · left
          rw [toggle_fault3 i s t h0 h1 h2 ht]
      · left
        rw [toggle_fault2 i s t h0 h1 ht]
  · left
    rw [toggle_fault1 i s h0]

/-- Case split: delete either leaves the table unchanged or filters out
the matching rows. -/
theorem delete_db_cases (i : Int) (s : St) :
    (Task.delete_with_id i s).2.db = s.db ∨
    (Task.delete_with_id i s).2.db = (s.db.filter fun r => !(r.id == i)) := by
  cases h : hd s.faults
  · right
    rw [delete_ok i s h]
  · left
    rw [delete_fault i s h]

/-- One operation: every row of the resulting table either keeps the id
and the description of a pre-existing row, or is the fresh row created
by an insert. -/
theorem stepOp_provenance (op : Op) (s : St) (r2 : Task) (hr : r2 ∈ (stepOp op s).db) :
    (∃ r ∈ s.db, r.id = r2.id ∧ r.description = r2.description) ∨
    (∃ todo, op = Op.ins todo ∧ r2.description = todo.description) := by
  cases op with
  | listAll =>
    left
    simp only [stepOp] at hr
    rw [all_db] at hr
    exact ⟨r2, hr, rfl, rfl⟩
  | getOne i =>
    left
    simp only [stepOp] at hr
    rw [get_one_db] at hr
    exact ⟨r2, hr, rfl, rfl⟩
  | ins todo =>
    simp only [stepOp] at hr
    rcases insert_db_cases todo s with h | h
    · rw [h] at hr
      exact .inl ⟨r2, hr, rfl, rfl⟩
    · rw [h] at hr
      rcases List.mem_append.mp hr with h2 | h2
      · exact .inl ⟨r2, h2, rfl, rfl⟩
      · have he : r2 = newTask todo s.db := List.mem_singleton.mp h2
        subst he
        exact .inr ⟨todo, rfl, rfl⟩
  | tog i =>
    left
    simp only [stepOp] at hr
    rcases toggle_db_cases i s with h | ⟨t, ht, h⟩
    · rw [h] at hr
      exact ⟨r2, hr, rfl, rfl⟩
    · rw [h] at hr
      rcases List.mem_map.mp hr with ⟨r, hrm, hre⟩
      by_cases hid : (r.id == i) = true
      · rw [if_pos hid] at hre
        subst hre
        exact ⟨r, hrm, rfl, rfl⟩
      · rw [if_neg hid] at hre
        subst hre
        exact ⟨r, hrm, rfl, rfl⟩
  | del i =>
    left
    simp only [stepOp] at hr
    rcases delete_db_cases i s with h | h
    · rw [h] at hr
      exact ⟨r2, hr, rfl, rfl⟩
    · rw [h] at hr
      exact ⟨r2, List.mem_of_mem_filter hr, rfl, rfl⟩

/-- One operation, full-row frame: every row of the resulting table is
either exactly a pre-existing row (completed flag included), or a row a
toggle targeted (a pre-existing row with only the completed flag
rewritten), or exactly the fresh row an insert created. -/
theorem stepOp_frame (op : Op) (s : St) (r2 : Task) (hr : r2 ∈ (stepOp op s).db) :
    r2 ∈ s.db ∨
    (∃ i t, op = Op.tog i ∧ findRow i s.db = some t ∧ r2.id = i ∧
      ∃ r ∈ s.db, r.id = i ∧ r2 = { r with completed := !t.completed }) ∨
    (∃ todo, op = Op.ins todo ∧ r2 = newTask todo s.db) := by
  cases op with
  | listAll =>
    left
    simp only [stepOp] at hr
    rwa [all_db] at hr
  | getOne i =>
    left
    simp only [stepOp] at hr
    rwa [get_one_db] at hr
  | ins todo =>
    simp only [stepOp] at hr
    rcases insert_db_cases todo s with h | h
    · rw [h] at hr
      exact .inl hr
    · rw [h] at hr
      rcases List.mem_append.mp hr with h2 | h2
      · exact .inl h2
      · exact .inr (.inr ⟨todo, rfl, List.mem_singleton.mp h2⟩)
  | tog i =>
    simp only [stepOp] at hr
    rcases toggle_db_cases i s with h | ⟨t, ht, h⟩
    · rw [h] at hr
      exact .inl hr
    · rw [h] at hr
      rcases List.mem_map.mp hr with ⟨r, hrm, hre⟩
      by_cases hid : (r.id == i) = true
      · have hri : r.id = i := beq_iff_eq.mp hid
        rw [if_pos hid] at hre
        subst hre
        exact .inr (.inl ⟨i, t, rfl, ht, hri, r, hrm, hri, rfl⟩)
      · rw [if_neg hid] at hre
        subst hre
        exact .inl hrm
  | del i =>
    left
    simp only [stepOp] at hr
    rcases delete_db_cases i s with h | h
    · rw [h] at hr
      exact hr
    · rw [h] at hr
      exact List.mem_of_mem_filter hr

/-- Sequence version: across any sequence of store operations, every
surviving row keeps the id and the description it had in the initial
table, unless it is a row created by one of the inserts. -/
theorem runOps_provenance (ops : List Op) (s : St) (r2 : Task)
    (hr : r2 ∈ (runOps ops s).db) :
    (∃ r ∈ s.db, r.id = r2.id ∧ r.description = r2.description) ∨
    (∃ todo, Op.ins todo ∈ ops ∧ r2.description = todo.description) := by
  induction ops generalizing s with
  | nil => exact .inl ⟨r2, hr, rfl, rfl⟩
  | cons op ops ih =>
    have hr2 : r2 ∈ (runOps ops (stepOp op s)).db := hr
    rcases ih (stepOp op s) hr2 with ⟨r, hrm, hid, hdesc⟩ | ⟨todo, hmem, hdesc⟩
    · rcases stepOp_provenance op s r hrm with ⟨r0, hr0, hid0, hdesc0⟩ | ⟨todo, hop, hdesc0⟩
      · exact .inl ⟨r0, hr0, hid0.trans hid, hdesc0.trans hdesc⟩
      · refine .inr ⟨todo, ?_, hdesc.symm.trans hdesc0⟩
        rw [← hop]
        exact List.mem_cons_self op ops
    · exact .inr ⟨todo, List.mem_cons_of_mem op hmem, hdesc⟩

/-- With pairwise-distinct ids (the primary-key invariant), the sorted
listing is strictly descending. -/
theorem sortDesc_strict (db : Db) (h : (db.map Task.id).Nodup) :
    (sortDesc db).Pairwise fun a b => b.id < a.id := by
  have hs : (sortDesc db).Pairwise taskGe := sortDesc_sorted db
  have hperm : ((sortDesc db).map Task.id).Perm (db.map Task.id) := (sortDesc_perm db).map _
  have hnd : ((sortDesc db).map Task.id).Nodup := hperm.nodup_iff.mpr h
  have hne : (sortDesc db).Pairwise fun a b => a.id ≠ b.id := List.pairwise_map.mp hnd
  exact (hs.and hne).imp fun hab => lt_of_le_of_ne hab.1 (Ne.symm hab.2)

example : Task.insert ⟨"buy milk"⟩ ⟨[], []⟩ =
    (some ⟨1, "buy milk", false⟩, ⟨[⟨1, "buy milk", false⟩], []⟩) := by decide

example : Task.toggle_with_id 1 ⟨[⟨1, "buy milk", false⟩], []⟩ =
    (some ⟨1, "buy milk", true⟩, ⟨[⟨1, "buy milk", true⟩], []⟩) := by decide

example : Task.delete_with_id 1 ⟨[⟨1, "buy milk", true⟩], []⟩ = (true, ⟨[], []⟩) := by decide

example : Task.get_one 1 ⟨[], []⟩ = (none, ⟨[], []⟩) := by decide

example : Task.all ⟨[⟨1, "a", false⟩, ⟨2, "b", false⟩], []⟩ =
    (.ok [⟨2, "b", false⟩, ⟨1, "a", false⟩], ⟨[⟨1, "a", false⟩, ⟨2, "b", false⟩], []⟩) := rfl

example : Task.all ⟨[⟨1, "a", false⟩], [true]⟩ = (.error .fatal, ⟨[⟨1, "a", false⟩], []⟩) := rfl

/-- C1: for every Todo payload and every table state, Insert performs
the insert and then re-reads the row with the greatest id (ordering by
descending id) within a single transaction, returning that newly
created Task, and returns an absent result (with the table rolled back)
whenever any of the two steps fails. -/
theorem C1_insert_transactional (todo : Todo) (s : St) :
    (hd s.faults = false → hd s.faults.tail = false →
      Task.insert todo s =
        (some (newTask todo s.db), ⟨s.db ++ [newTask todo s.db], s.faults.tail.tail⟩) ∧
      ∀ r ∈ s.db ++ [newTask todo s.db], r.id ≤ (newTask todo s.db).id) ∧
    (hd s.faults = true ∨ hd s.faults.tail = true →
      (Task.insert todo s).1 = none ∧ (Task.insert todo s).2.db = s.db) := by
  constructor
  · intro h1 h2
    refine ⟨insert_success todo s h1 h2, ?_⟩
    intro r hr
    rcases List.mem_append.mp hr with h | h
    · exact le_of_lt (id_lt_nextId s.db r h)
    · exact le_of_eq (congrArg Task.id (List.mem_singleton.mp h))
  · intro h
    cases hb : hd s.faults
    · have h2 : hd s.faults.tail = true := by
        rcases h with h | h
        · rw [hb] at h
          simp at h
        · exact h
      rw [insert_fault2 todo s hb h2]
      exact ⟨rfl, rfl⟩
    · rw [insert_fault1 todo s hb]
      exact ⟨rfl, rfl⟩

/-- Witness for C1: inserting into an empty fault-free table yields the
task with id 1 and commits it. -/
theorem C1_insert_transactional_witness :
    hd ([] : List Bool) = false ∧
    Task.insert ⟨"a"⟩ ⟨[], []⟩ = (some ⟨1, "a", false⟩, ⟨[⟨1, "a", false⟩], []⟩) := by
  refine ⟨rfl, ?_⟩
  have h := (C1_insert_transactional ⟨"a"⟩ ⟨[], []⟩).1 rfl rfl
  exact h.1.trans (by decide)

/-- C2: for every id present in the table, Toggle-by-id, within one
transaction, reads the row, writes the negated completed flag and
re-reads the row, returning the new state; for a missing id or any
failing step it returns None (the Option result type, never an abort). -/
theorem C2_toggle_spec (i : Int) (s : St) :
    (∀ t, hd s.faults = false → hd s.faults.tail = false → hd s.faults.tail.tail = false →
      findRow i s.db = some t →
      Task.toggle_with_id i s =
        (some { t with completed := !t.completed },
         ⟨s.db.map fun r => if r.id == i then { r with completed := !t.completed } else r,
          s.faults.tail.tail.tail⟩)) ∧
    (hd s.faults = false → findRow i s.db = none →
      Task.toggle_with_id i s = (none, ⟨s.db, s.faults.tail⟩)) ∧
    ((hd s.faults = true ∨ hd s.faults.tail = true ∨ hd s.faults.tail.tail = true) →
      (Task.toggle_with_id i s).1 = none ∧ (Task.toggle_with_id i s).2.db = s.db) := by
  refine ⟨fun t h0 h1 h2 ht => toggle_success i s t h0 h1 h2 ht,
    fun h0 ht => toggle_missing i s h0 ht, ?_⟩
  intro h
  cases h0 : hd s.faults
  · cases ht : findRow i s.db with
    | none =>
      rw [toggle_missing i s h0 ht]
      exact ⟨rfl, rfl⟩
    | some t =>
      cases h1 : hd s.faults.tail
      · cases h2 : hd s.faults.tail.tail
        · rcases h with h | h | h
          · rw [h0] at h
            simp at h
          · rw [h1] at h
            simp at h
          · rw [h2] at h
            simp at h
        · rw [toggle_fault3 i s t h0 h1 h2 ht]
          exact ⟨rfl, rfl⟩
      · rw [toggle_fault2 i s t h0 h1 ht]
        exact ⟨rfl, rfl⟩
  · rw [toggle_fault1 i s h0]
    exact ⟨rfl, rfl⟩

/-- Witness for C2: toggling id 1 on a fault-free one-row table flips
the flag of that row. -/
theorem C2_toggle_spec_witness :
    findRow 1 [(⟨1, "a", false⟩ : Task)] = some ⟨1, "a", false⟩ ∧
    Task.toggle_with_id 1 ⟨[⟨1, "a", false⟩], []⟩ =
      (some ⟨1, "a", true⟩, ⟨[⟨1, "a", true⟩], []⟩) := by
  refine ⟨by decide, ?_⟩
  have h := (C2_toggle_spec 1 ⟨[⟨1, "a", false⟩], []⟩).1 ⟨1, "a", false⟩ rfl rfl rfl (by decide)
  exact h.trans (by decide)

/-- C3: for every Todo, after a successful Insert returning a Task,
Get-by-id with the returned id yields a Task whose description equals
the payload description and whose completed flag is false. -/
theorem C3_insert_then_get (todo : Todo) (s : St)
    (h1 : hd s.faults = false) (h2 : hd s.faults.tail = false)
    (h3 : hd s.faults.tail.tail = false) :
    ∃ t, (Task.insert todo s).1 = some t ∧
      ∃ u, (Task.get_one t.id (Task.insert todo s).2).1 = some u ∧
        u.description = todo.description ∧ u.completed = false := by
  have hins := insert_success todo s h1 h2
  refine ⟨newTask todo s.db, by rw [hins], newTask todo s.db, ?_, rfl, rfl⟩
  have hfind : findRow (newTask todo s.db).id (s.db ++ [newTask todo s.db])
      = some (newTask todo s.db) :=
    findRow_append_fresh s.db (newTask todo s.db) fun r hr => ne_of_lt (id_lt_nextId s.db r hr)
  rw [hins]
  rw [get_one_found _ _ _ h3 hfind]

/-- Witness for C3 on an empty fault-free table with the payload of the
spec scenario. -/
theorem C3_insert_then_get_witness :
    hd ([] : List Bool) = false ∧
    ∃ t, (Task.insert ⟨"buy milk"⟩ ⟨[], []⟩).1 = some t ∧
      ∃ u, (Task.get_one t.id (Task.insert ⟨"buy milk"⟩ ⟨[], []⟩).2).1 = some u ∧
        u.description = "buy milk" ∧ u.completed = false :=
  ⟨rfl, C3_insert_then_get ⟨"buy milk"⟩ ⟨[], []⟩ rfl rfl rfl⟩

/-- C4: for an id present in the table, one fault-free Toggle-by-id
flips the completed flag of that row exactly once, and a second
fault-free call restores the original row. -/
theorem C4_toggle_twice (i : Int) (s : St) (t : Task)
    (ht : findRow i s.db = some t)
    (h0 : hd s.faults = false) (h1 : hd s.faults.tail = false)
    (h2 : hd s.faults.tail.tail = false) :
    ((Task.toggle_with_id i s).1 = some { t with completed := !t.completed } ∧
     findRow i (Task.toggle_with_id i s).2.db = some { t with completed := !t.completed }) ∧
    (hd s.faults.tail.tail.tail = false →
     hd s.faults.tail.tail.tail.tail = false →
     hd s.faults.tail.tail.tail.tail.tail = false →
      (Task.toggle_with_id i (Task.toggle_with_id i s).2).1 = some t ∧
      findRow i (Task.toggle_with_id i (Task.toggle_with_id i s).2).2.db = some t) := by
  have hs1 := toggle_success i s t h0 h1 h2 ht
  have hf1 : findRow i (Task.toggle_with_id i s).2.db
      = some { t with completed := !t.completed } := by
    rw [hs1]
    exact findRow_map_completed i s.db t (!t.completed) ht
  refine ⟨⟨by rw [hs1], hf1⟩, ?_⟩
  intro h3 h4 h5
  have hb3 : hd (Task.toggle_with_id i s).2.faults = false := by
    rw [hs1]
    exact h3
  have hb4 : hd (Task.toggle_with_id i s).2.faults.tail = false := by
    rw [hs1]
    exact h4
  have hb5 : hd (Task.toggle_with_id i s).2.faults.tail.tail = false := by
    rw [hs1]
    exact h5
  have hs2 := toggle_success i (Task.toggle_with_id i s).2
      { t with completed := !t.completed } hb3 hb4 hb5 hf1
  have h6 := findRow_map_completed i (Task.toggle_with_id i s).2.db
      { t with completed := !t.completed }
      (!({ t with completed := !t.completed } : Task).completed) hf1
  constructor
  · rw [hs2]
    simp [Bool.not_not]
  · rw [hs2]
    simpa [Bool.not_not] using h6

/-- Witness for C4: a double toggle of id 1 on a fault-free one-row
table returns the original row. -/
theorem C4_toggle_twice_witness :
    findRow 1 [(⟨1, "a", false⟩ : Task)] = some ⟨1, "a", false⟩ ∧
    (Task.toggle_with_id 1
        (Task.toggle_with_id 1 ⟨[⟨1, "a", false⟩], []⟩).2).1 = some ⟨1, "a", false⟩ := by
  refine ⟨by decide, ?_⟩
  exact ((C4_toggle_twice 1 ⟨[⟨1, "a", false⟩], []⟩ ⟨1, "a", false⟩
    (by decide) rfl rfl rfl).2 rfl rfl rfl).1

/-- C5: for every table state, List (when its one statement does not
fault) returns exactly the Task rows ordered by descending id, strictly
descending whenever the primary-key ids are pairwise distinct, and the
empty sequence when the table is empty. -/
theorem C5_list_spec (s : St) :
    (hd s.faults = false → Task.all s = (.ok (sortDesc s.db), ⟨s.db, s.faults.tail⟩)) ∧
    (sortDesc s.db).Perm s.db ∧
    ((s.db.map Task.id).Nodup → (sortDesc s.db).Pairwise fun a b => b.id < a.id) ∧
    (s.db = [] → sortDesc s.db = []) := by
  refine ⟨fun h => all_ok s h, sortDesc_perm s.db, fun h => sortDesc_strict s.db h, fun h => ?_⟩
  rw [h]
  rfl

/-- Witness for C5: listing a two-row fault-free table returns both
rows, newest first, regardless of insertion order. -/
theorem C5_list_spec_witness :
    hd ([] : List Bool) = false ∧
    Task.all ⟨[⟨1, "a", false⟩, ⟨2, "b", true⟩], []⟩ =
      (.ok [⟨2, "b", true⟩, ⟨1, "a", false⟩], ⟨[⟨1, "a", false⟩, ⟨2, "b", true⟩], []⟩) := by
  refine ⟨rfl, ?_⟩
  have h := (C5_list_spec ⟨[⟨1, "a", false⟩, ⟨2, "b", true⟩], []⟩).1 rfl
  exact h.trans (by rfl)

/-- C6: Delete-by-id removes the matching rows and returns true exactly
when a row was removed; it returns false when no row matched or the
statement failed (the two cases being indistinguishable in the boolean);
after a Delete-by-id returning true, Get-by-id on that id is absent. -/
theorem C6_delete_spec (i : Int) (s : St) :
    (hd s.faults = false →
      (Task.delete_with_id i s).2 = ⟨s.db.filter fun r => !(r.id == i), s.faults.tail⟩ ∧
      ((Task.delete_with_id i s).1 = true ↔ ∃ r ∈ s.db, r.id = i)) ∧
    (hd s.faults = true → Task.delete_with_id i s = (false, ⟨s.db, s.faults.tail⟩)) ∧
    ((Task.delete_with_id i s).1 = true →
      (Task.get_one i (Task.delete_with_id i s).2).1 = none) := by
  refine ⟨fun h => ⟨by rw [delete_ok i s h], ?_⟩, fun h => delete_fault i s h, ?_⟩
  · rw [delete_ok i s h]
    simp [decide_eq_true_iff, List.countP_pos_iff]
  · intro htrue
    cases h : hd s.faults
    · rw [delete_ok i s h]
      cases h2 : hd s.faults.tail
      · rw [get_one_missing i _ h2 (findRow_filter_none i s.db)]
      · rw [get_one_fault i _ h2]
    · rw [delete_fault i s h] at htrue
      simp at htrue

/-- Witness for C6: deleting id 1 from a fault-free one-row table
returns true, and the iff against row existence holds there. -/
theorem C6_delete_spec_witness :
    hd ([] : List Bool) = false ∧
    ((Task.delete_with_id 1 ⟨[⟨1, "a", false⟩], []⟩).1 = true ↔
      ∃ r ∈ [(⟨1, "a", false⟩ : Task)], r.id = 1) :=
  ⟨rfl, ((C6_delete_spec 1 ⟨[⟨1, "a", false⟩], []⟩).1 rfl).2⟩

/-- C7: Get-by-id returns the matching Task when the row exists and an
explicit None when it does not or when the statement faults; the Option
result type carries no abort path. -/
theorem C7_get_one_spec (i : Int) (s : St) :
    (∀ t, hd s.faults = false → findRow i s.db = some t →
      Task.get_one i s = (some t, ⟨s.db, s.faults.tail⟩)) ∧
    (hd s.faults = false → findRow i s.db = none →
      Task.get_one i s = (none, ⟨s.db, s.faults.tail⟩)) ∧
    (hd s.faults = true → Task.get_one i s = (none, ⟨s.db, s.faults.tail⟩)) :=
  ⟨fun t h ht => get_one_found i s t h ht,
   fun h ht => get_one_missing i s h ht,
   fun h => get_one_fault i s h⟩

/-- Witness for C7: getting a missing id from an empty fault-free table
returns None. -/
theorem C7_get_one_spec_witness :
    findRow 5 ([] : Db) = none ∧
    Task.get_one 5 ⟨[], []⟩ = (none, ⟨[], []⟩) :=
  ⟨rfl, (C7_get_one_spec 5 ⟨[], []⟩).2.1 rfl rfl⟩

/-- C8: when the storage engine reports an error, List aborts with a
fatal error rather than returning an empty (or any) row list, while
every other operation collapses the same storage error into None or
false. -/
theorem C8_list_fatal_on_storage_error (i : Int) (todo : Todo) (s : St)
    (h : hd s.faults = true) :
    (Task.all s).1 = Except.error Fatal.fatal ∧
    (∀ ts, (Task.all s).1 ≠ Except.ok ts) ∧
    (Task.get_one i s).1 = none ∧
    (Task.insert todo s).1 = none ∧
    (Task.toggle_with_id i s).1 = none ∧
    (Task.delete_with_id i s).1 = false := by
  refine ⟨by rw [all_fault s h], ?_, by rw [get_one_fault i s h],
    by rw [insert_fault1 todo s h], by rw [toggle_fault1 i s h], by rw [delete_fault i s h]⟩
  intro ts hts
  rw [all_fault s h] at hts
  simp at hts

/-- Witness for C8: a faulting List on an empty table aborts. -/
theorem C8_list_fatal_on_storage_error_witness :
    hd [true] = true ∧ (Task.all ⟨[], [true]⟩).1 = Except.error Fatal.fatal :=
  ⟨rfl, (C8_list_fatal_on_storage_error 0 ⟨"a"⟩ ⟨[], [true]⟩ rfl).1⟩

/-- C9: no operation other than toggle mutates an existing row: after
any single operation every surviving row is either exactly a
pre-existing row (completed flag included), or a row the toggle
targeted, namely a pre-existing row whose id matches the requested one
with only its completed flag rewritten, or exactly the fresh row an
insert created; across every sequence of operations a surviving row
keeps its creation id and description; and a successful toggle rewrites
exactly the completed flag of the rows carrying the requested id,
leaving every other row and field untouched. -/
theorem C9_only_toggle_mutates :
    (∀ op : Op, ∀ s : St, ∀ r2 ∈ (stepOp op s).db,
      r2 ∈ s.db ∨
      (∃ i t, op = Op.tog i ∧ findRow i s.db = some t ∧ r2.id = i ∧
        ∃ r ∈ s.db, r.id = i ∧ r2 = { r with completed := !t.completed }) ∨
      (∃ todo, op = Op.ins todo ∧ r2 = newTask todo s.db)) ∧
    (∀ ops : List Op, ∀ s : St, ∀ r2 ∈ (runOps ops s).db,
      (∃ r ∈ s.db, r.id = r2.id ∧ r.description = r2.description) ∨
      (∃ todo, Op.ins todo ∈ ops ∧ r2.description = todo.description)) ∧
    (∀ i : Int, ∀ s : St,
      (Task.toggle_with_id i s).2.db = s.db ∨
      ∃ t, findRow i s.db = some t ∧
        (Task.toggle_with_id i s).2.db =
          (s.db.map fun r => if r.id == i then { r with completed := !t.completed } else r)) :=
  ⟨fun op s r2 hr => stepOp_frame op s r2 hr,
   fun ops s r2 hr => runOps_provenance ops s r2 hr,
   fun i s => toggle_db_cases i s⟩

/-- Witness for C9: the row surviving an insert on the empty table is
exactly the fresh row, as the frame conjunct describes. -/
theorem C9_only_toggle_mutates_witness :
    ((⟨1, "a", false⟩ : Task) ∈ (stepOp (Op.ins ⟨"a"⟩) ⟨[], []⟩).db) ∧
    ((⟨1, "a", false⟩ : Task) ∈ ([] : Db) ∨
     (∃ i t, Op.ins (⟨"a"⟩ : Todo) = Op.tog i ∧ findRow i ([] : Db) = some t ∧
        Task.id ⟨1, "a", false⟩ = i ∧
        ∃ r ∈ ([] : Db), r.id = i ∧
          (⟨1, "a", false⟩ : Task) = { r with completed := !t.completed }) ∨
     (∃ todo, Op.ins (⟨"a"⟩ : Todo) = Op.ins todo ∧
        (⟨1, "a", false⟩ : Task) = newTask todo ([] : Db))) :=
  ⟨by decide, C9_only_toggle_mutates.1 (Op.ins ⟨"a"⟩) ⟨[], []⟩ ⟨1, "a", false⟩ (by decide)⟩

/-- C10: List and Get-by-id are read-only: they leave the tasks table
exactly unchanged in every state, faulting or not. -/
theorem C10_reads_pure (i : Int) (s : St) :
    (Task.all s).2.db = s.db ∧ (Task.get_one i s).2.db = s.db :=
  ⟨all_db s, get_one_db i s⟩

end RocketDemo
